import Mathlib

/-!
Verification of the yt-down repository (src/yt.py) against its specification.

The script is modelled by a shallow embedding: pure helper functions of yt.py
become Lean functions over String / List Char / Nat / Int; the effectful
per-video download operation becomes a pure function from an explicit
environment (format lists, filesystem contents, success flags of the external
tools) to an outcome plus a trace of attempted effects.  Numeric metadata
fields (bitrates, file sizes) are rationals or ints in Python; the code only
ever compares them, so they are modelled as Nat.
-/

deriving instance DecidableEq for Except

namespace YtDown

/-! ## Low-level character and list utilities (Python string primitives) -/

/-- Value of a decimal digit character (the code only applies it to digits). -/
def digitVal (c : Char) : Nat := c.toNat - 48

/-- Numeric value of a list of decimal digit characters, most significant first. -/
def decVal (l : List Char) : Nat := l.foldl (fun a c => a * 10 + digitVal c) 0

/-- Whitespace accepted around Python int literals (ASCII subset of str.strip). -/
def isPyWs (c : Char) : Bool :=
  c = ' ' || c = '\t' || c = '\n' || c = '\r' || c = '\x0b' || c = '\x0c'

/-- Strip leading and trailing whitespace, as int() does before parsing. -/
def stripWs (l : List Char) : List Char :=
  ((l.dropWhile isPyWs).reverse.dropWhile isPyWs).reverse

/-- Parse the digit part of a Python int literal: digits with single
underscores allowed between digits (as in int of Python 3.6+), accumulating
into acc.  The first character must already be known to be a digit. -/
def pyDigitsVal (acc : Nat) : List Char → Option Nat
  | [] => some acc
  | c :: rest =>
    if c.isDigit then pyDigitsVal (acc * 10 + digitVal c) rest
    else if c = '_' then
      match rest with
      | [] => none
      | d :: rest2 => if d.isDigit then pyDigitsVal (acc * 10 + digitVal d) rest2 else none
    else none

/-- Digit run with a required leading digit. -/
def pyIntCore : List Char → Option Nat
  | [] => none
  | c :: rest => if c.isDigit then pyDigitsVal (digitVal c) rest else none

/-- Python int(s) on a string: optional surrounding whitespace, optional sign,
then a digit run with optional single underscores between digits; returns none
where Python raises ValueError.  (Non-ASCII digits are not modelled; they do
not occur in resolution strings.) -/
def pyIntL : List Char → Option Int
  | [] => none
  | c :: rest =>
    if c = '+' then (pyIntCore rest).map (fun n => (n : Int))
    else if c = '-' then (pyIntCore rest).map (fun n => -(n : Int))
    else (pyIntCore (c :: rest)).map (fun n => (n : Int))

def pyInt? (s : String) : Option Int := pyIntL (stripWs s.data)

/-- Split a character list at every occurrence of sep, like str.split(sep)
for a one-character separator.  Always returns a nonempty list of pieces. -/
def splitOnChar (sep : Char) : List Char → List (List Char)
  | [] => [[]]
  | c :: rest =>
    let r := splitOnChar sep rest
    if c = sep then [] :: r
    else
      match r with
      | g :: gs => (c :: g) :: gs
      | [] => [[c]]

/-- Split at the first occurrence of sep: returns the piece before it and,
when sep occurs, the remainder after it (like str.split(sep, 1)). -/
def splitFirst (sep : Char) : List Char → List Char × Option (List Char)
  | [] => ([], none)
  | c :: rest =>
    if c = sep then ([], some rest)
    else
      match splitFirst sep rest with
      | (pre, post) => (c :: pre, post)

/-- Bool test that pat is an initial segment of l. -/
def startsWithL : List Char → List Char → Bool
  | [], _ => true
  | _ :: _, [] => false
  | a :: as, b :: bs => a = b && startsWithL as bs

/-- Bool test that needle occurs as a contiguous substring of hay
(the Python expression needle in hay). -/
def hasSubstring (needle : List Char) : List Char → Bool
  | [] => startsWithL needle []
  | c :: rest => startsWithL needle (c :: rest) || hasSubstring needle rest

/-- String wrapper for hasSubstring: the Python test needle in hay. -/
def containsSub (hay needle : String) : Bool := hasSubstring needle.data hay.data

/-! ## Decimal rendering of counters (str(counter) in f-strings) -/

/-- Decimal digits of n, most significant first, with explicit fuel so that
the definition is structurally recursive; fuel n + 1 always suffices. -/
def natDigitsF : Nat → Nat → List Char
  | 0, _ => []
  | fuel + 1, n =>
    if n < 10 then [Char.ofNat (48 + n)]
    else natDigitsF fuel (n / 10) ++ [Char.ofNat (48 + n % 10)]

/-- Decimal rendering of a natural number, as Python str(n) for n >= 0. -/
def natStr (n : Nat) : String := String.mk (natDigitsF (n + 1) n)

/-! ## get_resolution_height (yt.py lines 117-129) -/

/-- Mirrors get_resolution_height (yt.py 117-129).  An empty string is falsy
and yields none.  When the string contains a lowercase x, the code tries
int-parsing the two pieces around it and returns the second on success,
falling through otherwise.  The fallback regex (\d+)p? is matched against
resolution.lower(); ASCII lowercasing maps no character to or from a decimal
digit, so the leading digit run of the lowered string equals that of the
original, which is used directly here. -/
def get_resolution_height (resolution : String) : Option Int :=
  if resolution = "" then none
  else
    let xcase : Option Int :=
      if resolution.data.contains 'x' then
        match splitOnChar 'x' resolution.data with
        | [w, h] =>
          match pyInt? (String.mk w), pyInt? (String.mk h) with
          | some _, some hv => some hv
          | _, _ => none
        | _ => none
      else none
    match xcase with
    | some h => some h
    | none =>
      let ds := resolution.data.takeWhile Char.isDigit
      if ds = [] then none else some ((decVal ds : Nat) : Int)

/-! ## sanitize_filename (yt.py lines 27-34) -/

/-- The characters removed by the regex [<>:"/\\|?*] in sanitize_filename. -/
def INVALID_FILENAME_CHARS : List Char := ['<', '>', ':', '"', '/', '\\', '|', '?', '*']

/-- Python list slicing l[:n] for a possibly negative bound n. -/
def pySliceTo (l : List Char) (n : Int) : List Char :=
  if 0 ≤ n then l.take n.toNat else l.take (l.length - (-n).toNat)

/-- The default max_length argument of sanitize_filename. -/
def DEFAULT_MAX_FILENAME_LENGTH : Nat := 150

/-- One step of the regex substitution: an invalid character becomes an
underscore, every other character is kept. -/
def cleanChar (c : Char) : Char := if c ∈ INVALID_FILENAME_CHARS then '_' else c

/-- Mirrors sanitize_filename (yt.py 27-34): replace each invalid character by
an underscore, then truncate to max_length - 3 characters plus "..." when the
cleaned name exceeds max_length. -/
def sanitize_filename (filename : String) (max_length : Nat) : String :=
  let clean := String.mk (filename.data.map cleanChar)
  if clean.length > max_length then
    String.mk (pySliceTo clean.data ((max_length : Int) - 3)) ++ "..."
  else clean

/-! ## get_unique_filename (yt.py lines 36-49) -/

/-- POSIX os.path.join for a relative second component and a first component
without trailing slash, the only shapes the script produces. -/
def joinPath (a b : String) : String := a ++ "/" ++ b

/-- The base name built at yt.py lines 38-40: sanitized title plus suffix. -/
def uniqueBaseName (title suffix : String) : String :=
  let base0 := sanitize_filename title DEFAULT_MAX_FILENAME_LENGTH
  if suffix ≠ "" then base0 ++ suffix else base0

/-- Candidate path number k of the collision loop: k = 0 is the plain name,
k >= 1 appends an underscore and the counter (yt.py lines 42-46). -/
def uniqueCandidate (base_path base_name : String) (k : Nat) : String :=
  if k = 0 then joinPath base_path (base_name ++ ".mp4")
  else joinPath base_path (base_name ++ "_" ++ natStr k ++ ".mp4")

/-- The while-loop of get_unique_filename, with explicit fuel.  The caller
passes fuel fs.length + 1, which is enough because the candidates are
pairwise distinct paths and the filesystem fs is finite. -/
def uniqueLoop (fs : List String) (base_path base_name : String) : Nat → Nat → String
  | k, 0 => uniqueCandidate base_path base_name k
  | k, fuel + 1 =>
    if uniqueCandidate base_path base_name k ∈ fs then
      uniqueLoop fs base_path base_name (k + 1) fuel
    else uniqueCandidate base_path base_name k

/-- Mirrors get_unique_filename (yt.py 36-49).  The filesystem is modelled as
the list fs of currently existing paths; os.path.exists is membership. -/
def get_unique_filename (fs : List String) (base_path title suffix : String) : String :=
  uniqueLoop fs base_path (uniqueBaseName title suffix) 0 (fs.length + 1)

/-! ## check_file_exists (yt.py lines 103-115) -/

/-- ASCII lowering of a string, enough for the choice.lower() comparison. -/
def strLower (s : String) : String := String.mk (s.data.map Char.toLower)

/-- Mirrors check_file_exists (yt.py 103-115).  The interactive input() is
modelled by the user_choice parameter.  Note that this function is defined in
yt.py but never called on any execution path. -/
def check_file_exists (fs : List String) (filepath : String)
    (force_overwrite : Bool) (user_choice : String) : Bool :=
  if filepath ∈ fs then
    if force_overwrite then true
    else if strLower user_choice ≠ "y" then false
    else true
  else true

/-! ## Stream descriptors and format selection (yt.py lines 131-213) -/

/-- A stream descriptor as consumed by the selection code: the fields the
script reads from each yt-dlp format dict.  A missing key and a key whose
value is None both behave like none here, because every numeric read goes
through .get(k, 0) followed by an or-chain, and every string read through
.get(k) or .get(k, ).  Bitrates and sizes are numbers only compared by the
code, modelled as Nat. -/
structure Format where
  format_id : String
  ext : String
  resolution : Option String
  vcodec : Option String
  acodec : Option String
  tbr : Option Nat
  vbr : Option Nat
  filesize : Option Nat
deriving DecidableEq, Repr

/-- The expression fmt.get(resolution, ), an empty string for missing. -/
def resStr (f : Format) : String := f.resolution.getD ""

/-- Line 142: get_resolution_height(...) or 0. -/
def fmtHeight (f : Format) : Int := (get_resolution_height (resStr f)).getD 0

/-- Line 144: fmt.get(tbr, 0) or fmt.get(vbr, 0) or 0. -/
def fmtBitrate (f : Format) : Nat :=
  if f.tbr.getD 0 ≠ 0 then f.tbr.getD 0 else f.vbr.getD 0

/-- Line 146: fmt.get(filesize, 0) or 0. -/
def fmtFilesize (f : Format) : Nat := f.filesize.getD 0

/-- Lexicographic comparison of the (height, bitrate, filesize) tuples of
line 148, as Python sorted() compares tuple keys. -/
def qualityLe (f g : Format) : Bool :=
  decide (fmtHeight f < fmtHeight g ∨ (fmtHeight f = fmtHeight g ∧
    (fmtBitrate f < fmtBitrate g ∨ (fmtBitrate f = fmtBitrate g ∧
      fmtFilesize f ≤ fmtFilesize g))))

/-- Insert into a sorted list, keeping the new element before later equal
keys: together with sortByKey this is a stable sort, extensionally equal to
Python sorted(l, key=k) for a total preorder on keys. -/
def insertSorted (le : α → α → Bool) (x : α) : List α → List α
  | [] => [x]
  | y :: ys => if le x y then x :: y :: ys else y :: insertSorted le x ys

/-- Stable insertion sort with a Bool comparison. -/
def sortByKey (le : α → α → Bool) : List α → List α
  | [] => []
  | x :: xs => insertSorted le x (sortByKey le xs)

/-- Mirrors sort_formats_by_quality (yt.py 139-150). -/
def sort_formats_by_quality (formats : List Format) : List Format :=
  sortByKey qualityLe formats

/-- The single fallback score of lines 197 and 205:
f.get(tbr, 0) or f.get(vbr, 0) or f.get(filesize, 0) or 0. -/
def scalarScore (f : Format) : Nat :=
  if f.tbr.getD 0 ≠ 0 then f.tbr.getD 0
  else if f.vbr.getD 0 ≠ 0 then f.vbr.getD 0
  else f.filesize.getD 0

/-- Comparison by scalarScore (the sorted key of line 205). -/
def scalarLe (f g : Format) : Bool := scalarScore f ≤ scalarScore g

/-- The filter condition of line 182: the parsed height is truthy (some and
nonzero) and at most the cap. -/
def qualifiesB (f : Format) (H : Int) : Bool :=
  match get_resolution_height (resStr f) with
  | some h => h ≠ 0 && h ≤ H
  | none => false

/-- The key function of line 202: get_resolution_height(r) or 0. -/
def resKeyHeight (r : String) : Int := (get_resolution_height r).getD 0

/-- One step of the grouping loop of lines 187-192: append f to the group of
its resolution string, creating the group at the end on first occurrence
(Python dicts preserve insertion order). -/
def addToGroups (gs : List (String × List Format)) (f : Format) :
    List (String × List Format) :=
  if gs.any (fun p => p.1 == resStr f) then
    gs.map (fun p => if p.1 = resStr f then (p.1, p.2 ++ [f]) else p)
  else gs ++ [(resStr f, [f])]

/-- The formats_by_res dict of lines 187-192, as an insertion-ordered
association list. -/
def groupByRes (l : List Format) : List (String × List Format) :=
  l.foldl addToGroups []

/-- Python max(m, key=resKeyHeight): the first element attaining the maximal
resKeyHeight, none on the empty list (where Python raises). -/
def pyMaxList : List String → Option String
  | [] => none
  | k :: ks =>
    some (ks.foldl (fun cur y => if resKeyHeight cur < resKeyHeight y then y else cur) k)

/-- The max over the dict keys of line 202. -/
def pyMaxKey (gs : List (String × List Format)) : Option String :=
  pyMaxList (gs.map Prod.fst)

/-- Dict lookup formats_by_res[r] on the association list. -/
def lookupGroup (gs : List (String × List Format)) (k : String) :
    Option (List Format) :=
  (gs.find? (fun p => p.1 == k)).map Prod.snd

/-- Python list[-1] as used on line 205 and 210, an IndexError on []. -/
def pyLastFmt (l : List Format) : Except String Format :=
  match l.getLast? with
  | some f => .ok f
  | none => .error "IndexError: list index out of range"

/-- Mirrors the video-format selection of download_video_and_audio_separately
(yt.py 176-210): when a resolution cap is given and parses to a truthy
height, sort by quality, filter by the cap (raising when nothing qualifies),
group by exact resolution string, take the group of the first key with
maximal height and in it the last format of the scalar-score sort; the
default pick (line 210) is the last element of the (possibly replaced)
video_formats list. -/
def selectVideoFormat (video_formats : List Format) (max_resolution : Option String) :
    Except String Format :=
  match max_resolution with
  | none => pyLastFmt video_formats
  | some res =>
    match get_resolution_height res with
    | none => pyLastFmt video_formats
    | some H =>
      if H = 0 then pyLastFmt video_formats
      else
        let sorted1 := sort_formats_by_quality video_formats
        let filtered := sorted1.filter (fun f => qualifiesB f H)
        if filtered = [] then
          .error ("No video formats found for resolution " ++ res ++ " or below")
        else
          let groups := groupByRes filtered
          match pyMaxKey groups with
          | none => .error "ValueError: max() arg is an empty sequence"
          | some res_max =>
            match lookupGroup groups res_max with
            | none => .error "KeyError"
            | some best_formats => pyLastFmt (sortByKey scalarLe best_formats)

/-! ## urlparse and parse_qs (urllib.parse, as called from yt.py 78-85) -/

/-- The pieces of urllib.parse.urlparse. -/
structure UrlParts where
  scheme : String
  netloc : String
  path : String
  params : String
  query : String
  fragment : String
deriving DecidableEq, Repr

/-- Characters allowed in a URL scheme. -/
def isSchemeChar (c : Char) : Bool := c.isAlphanum || c = '+' || c = '-' || c = '.'

/-- urlsplit removes every tab, carriage return and newline from the URL. -/
def removeUnsafeUrl (l : List Char) : List Char :=
  l.filter (fun c => !(c = '\t' || c = '\r' || c = '\n'))

/-- WHATWG C0 control or space, stripped from both ends by urlsplit. -/
def isC0OrSpace (c : Char) : Bool := c.toNat ≤ 32

def stripC0 (l : List Char) : List Char :=
  ((l.dropWhile isC0OrSpace).reverse.dropWhile isC0OrSpace).reverse

/-- A netloc delimiter: the first of / ? # ends the authority part. -/
def isNetlocEnd (c : Char) : Bool := c = '/' || c = '?' || c = '#'

/-- The _splitparams helper of urlparse: split the parameters after the first
semicolon of the last path segment. -/
def splitParams (l : List Char) : List Char × List Char :=
  if l.contains '/' then
    let post := (l.reverse.takeWhile (fun c => c ≠ '/')).reverse
    let before := l.take (l.length - post.length)
    match splitFirst ';' post with
    | (a, some b) => (before ++ a, b)
    | (_, none) => (l, [])
  else
    match splitFirst ';' l with
    | (a, some b) => (a, b)
    | (_, none) => (l, [])

/-- Mirrors urllib.parse.urlparse on character lists: strip controls, split
off a valid scheme, an authority after //, then fragment, query and params.
The ValueError raised for unbalanced brackets in the netloc is not modelled;
theorems about inputs that could hit it carry a no-bracket hypothesis. -/
def urlparseCore (url0 : List Char) : UrlParts :=
  let url1 := stripC0 (removeUnsafeUrl url0)
  let sp := splitFirst ':' url1
  let schemeRest : List Char × List Char :=
    match sp.2 with
    | some after =>
      if sp.1 ≠ [] ∧ (sp.1.headD ' ').isAlpha ∧ sp.1.all isSchemeChar
      then (sp.1.map Char.toLower, after) else ([], url1)
    | none => ([], url1)
  let netlocRest : List Char × List Char :=
    match schemeRest.2 with
    | '/' :: '/' :: r => (r.takeWhile (fun c => !isNetlocEnd c),
                          r.dropWhile (fun c => !isNetlocEnd c))
    | u => ([], u)
  let fr := splitFirst '#' netlocRest.2
  let restNoFrag := fr.1
  let fragment := (fr.2).getD []
  let qu := splitFirst '?' restNoFrag
  let path0 := qu.1
  let query := (qu.2).getD []
  let pp : List Char × List Char :=
    if path0.contains ';' then splitParams path0 else (path0, [])
  ⟨String.mk schemeRest.1, String.mk netlocRest.1, String.mk pp.1,
   String.mk pp.2, String.mk query, String.mk fragment⟩

/-- urlparse on strings. -/
def urlparse (s : String) : UrlParts := urlparseCore s.data

/-- Value of a hexadecimal digit, as accepted by percent escapes. -/
def hexVal? (c : Char) : Option Nat :=
  if c.isDigit then some (c.toNat - 48)
  else if 'a' ≤ c ∧ c ≤ 'f' then some (c.toNat - 87)
  else if 'A' ≤ c ∧ c ≤ 'F' then some (c.toNat - 55)
  else none

/-- Percent decoding of urllib.parse.unquote: a valid escape becomes the
escaped byte, an invalid escape is kept verbatim.  Escaped bytes are mapped
to the code point of the byte value; multi-byte UTF-8 escape sequences
(bytes at or above 0x80, absent from the inputs of the claims) are therefore
decoded bytewise instead of as UTF-8. -/
def unquoteL : List Char → List Char
  | [] => []
  | '%' :: a :: b :: rest =>
    match hexVal? a, hexVal? b with
    | some x, some y => Char.ofNat (16 * x + y) :: unquoteL rest
    | _, _ => '%' :: unquoteL (a :: b :: rest)
  | c :: rest => c :: unquoteL rest

/-- unquote_plus on character lists: plus signs become spaces, then percent
escapes are decoded. -/
def uqPlus (l : List Char) : List Char :=
  unquoteL (l.map (fun c => if c = '+' then ' ' else c))

/-- One field of a query string, parsed as parse_qsl does with
keep_blank_values False: empty fields, fields without an equals sign and
fields with an empty raw value are dropped. -/
def fieldPair? (fld : List Char) : Option (List Char × List Char) :=
  if fld = [] then none
  else
    match splitFirst '=' fld with
    | (_, none) => none
    | (n, some v) => if v = [] then none else some (n, v)

/-- Mirrors parse_qs(query).get(v, [None])[0] of yt.py line 83: the unquoted
value of the first kept field whose unquoted name is the one-character string
v, or none when the query has no such field. -/
def parse_qs_v (query : String) : Option String :=
  ((splitOnChar '&' query.data).filterMap fieldPair?).findSome?
    (fun p => if String.mk (uqPlus p.1) = "v"
              then some (String.mk (uqPlus p.2)) else none)

/-! ## get_video_id (yt.py lines 78-96) -/

/-- An id/title pair as produced by the input resolver; either component can
be Python None. -/
structure VideoRef where
  id : Option String
  title : Option String
deriving DecidableEq, Repr

/-- Python s[1:]. -/
def strTail (s : String) : String := String.mk (s.data.drop 1)

/-- Mirrors get_video_id (yt.py 78-96).  The network search (search_youtube)
is modelled by the oracle parameter search; Python returns None when the
search result is falsy (None or the empty list), modelled by collapsing both
to none.  A quantification over every oracle expresses that a branch
performs no network search. -/
def get_video_id (search : String → Nat → Option (List VideoRef))
    (input : String) (max_results : Nat) : Option (List VideoRef) :=
  if containsSub input "youtube.com" || containsSub input "youtu.be" then
    if containsSub input "youtube.com" then
      some [⟨parse_qs_v (urlparse input).query, none⟩]
    else
      some [⟨some (strTail (urlparse input).path), none⟩]
  else if input.length = 11 then
    some [⟨some input, none⟩]
  else
    match search input max_results with
    | some (v :: vs) => some (v :: vs)
    | _ => none

/-- Modelled from the spec: "the first path segment (short form)" — the path
with its leading slashes removed, up to the next slash. -/
def specFirstPathSegment (path : String) : String :=
  String.mk ((path.data.dropWhile (fun c => c = '/')).takeWhile (fun c => c ≠ '/'))

/-! ## The per-video download operation (yt.py lines 152-347)

The effectful operation is modelled as a pure function of an environment
that fixes what the network, the filesystem and the external tools would do,
returning an outcome plus the ordered trace of attempted effects. -/

/-- Externally visible actions attempted by the operation.  A removeTemp
effect stands for the guarded best-effort deletion of one temporary path
(existence check plus remove, secondary errors swallowed). -/
inductive Effect
  | downloadVideo (format_id : String)
  | downloadAudio (format_id : String)
  | muxInvoke (temp_video temp_audio output : String)
  | removeTemp (path : String)
deriving DecidableEq, Repr

/-- How one call of download_video_and_audio_separately ends, as seen by the
batch loop: normal completion, a plain early return (also a non-exceptional
None result), an exception propagated by the bare raise of line 347, or the
secondary UnboundLocalError raised by the cleanup handler itself. -/
inductive Outcome
  | completed
  | earlyReturn
  | raised (msg : String)
  | raisedSecondary (msg : String)
deriving DecidableEq, Repr

/-- How the try-block body (yt.py 153-337) stops: raisedNoTemps is an
exception thrown before the assignments to temp_video and temp_audio at
lines 270-271, raisedWithTemps one thrown after them. -/
inductive BodyStop
  | finished
  | earlyReturn
  | raisedNoTemps (msg : String)
  | raisedWithTemps (msg : String)
deriving DecidableEq, Repr

/-- Environment of one run: the per-video arguments together with the
responses of the network, the user, the filesystem and the external tools.
forceOverwrite is carried because the script passes it (yt.py 442), although
the function body never reads it. -/
structure Env where
  videoId : String
  knownTitle : Option String
  skipQuality : Bool
  outputDir : Option String
  suffix : String
  forceOverwrite : Bool
  maxResolution : Option String
  infoFetchOk : Bool
  formats : List Format
  titleFetchOk : Bool
  fetchedTitle : String
  qualityChoice : String
  videoChoiceRaw : String
  audioChoiceRaw : String
  fs : List String
  videoDlOk : Bool
  audioDlOk : Bool
  tempVideoPresent : Bool
  tempAudioPresent : Bool
  muxReturncode : Nat
  outputPresent : Bool
  outputSize : Nat
  removeVideoOk : Bool
deriving Repr

/-- The default download directory (os.path.dirname(__file__) modelled as
the current directory). -/
def DOWNLOAD_DIR : String := "download"

/-- The fixed temporary path of the video stream (yt.py 270). -/
def tempVideoPath (e : Env) : String :=
  joinPath DOWNLOAD_DIR (e.videoId ++ "_temp_video.mp4")

/-- The fixed temporary path of the audio stream (yt.py 271). -/
def tempAudioPath (e : Env) : String :=
  joinPath DOWNLOAD_DIR (e.videoId ++ "_temp_audio.mp4")

/-- The video-only subset of yt.py line 169. -/
def videoOnly (formats : List Format) : List Format :=
  formats.filter (fun f =>
    !(f.vcodec == some "none") && f.acodec == some "none" &&
    !(f.resolution == some "unknown"))

/-- The audio-only subset of yt.py line 170. -/
def audioOnly (formats : List Format) : List Format :=
  formats.filter (fun f => !(f.acodec == some "none") && f.vcodec == some "none")

/-- The try-block body of download_video_and_audio_separately, in source
order: metadata fetch, subset filtering with the early return of line 174,
format selection (raising before the temporary paths exist), interactive or
default choice, title resolution, output path computation, the two
downloads, the temp-file checks, the mux call, the output verification, and
the success-path cleanup of lines 330-335 (second removal only attempted
when the first did not fail). -/
def runBody (e : Env) : BodyStop × List Effect :=
  if e.infoFetchOk then
    let vfs := videoOnly e.formats
    let afs := audioOnly e.formats
    if vfs = [] ∨ afs = [] then (.earlyReturn, [])
    else
      match selectVideoFormat vfs e.maxResolution with
      | .error msg => (.raisedNoTemps msg, [])
      | .ok bestv =>
        match afs.head? with
        | none => (.raisedNoTemps "IndexError: list index out of range", [])
        | some besta =>
          let manual : Sum (String × String) BodyStop :=
            match (if e.videoChoiceRaw = "" then some ((vfs.length : Int))
                   else pyInt? e.videoChoiceRaw) with
            | none => .inr (.raisedNoTemps "ValueError: invalid literal for int")
            | some vc =>
              if 1 ≤ vc ∧ vc ≤ (vfs.length : Int) then
                match vfs.get? (vc.toNat - 1) with
                | none => .inr (.raisedNoTemps "IndexError: list index out of range")
                | some vf =>
                  match (if e.audioChoiceRaw = "" then some (1 : Int)
                         else pyInt? e.audioChoiceRaw) with
                  | none => .inr (.raisedNoTemps "ValueError: invalid literal for int")
                  | some ac =>
                    if 1 ≤ ac ∧ ac ≤ (afs.length : Int) then
                      match afs.get? (ac.toNat - 1) with
                      | none =>
                        .inr (.raisedNoTemps "IndexError: list index out of range")
                      | some af => .inl (vf.format_id, af.format_id)
                    else .inr .earlyReturn
              else .inr .earlyReturn
          let sel : Sum (String × String) BodyStop :=
            if e.maxResolution.isSome then .inl (bestv.format_id, besta.format_id)
            else if e.skipQuality then .inl (bestv.format_id, besta.format_id)
            else if e.qualityChoice = "" then .inl (bestv.format_id, besta.format_id)
            else manual
          match sel with
          | .inr stop => (stop, [])
          | .inl sv =>
            let titleOk : Option String :=
              match e.knownTitle with
              | some t => if t ≠ "" then some t else none
              | none => none
            let titleRes : Sum String BodyStop :=
              match titleOk with
              | some t => .inl t
              | none =>
                if e.titleFetchOk then .inl e.fetchedTitle
                else .inr (.raisedNoTemps "DownloadError")
            match titleRes with
            | .inr stop => (stop, [])
            | .inl title =>
              let target_dir := e.outputDir.getD DOWNLOAD_DIR
              let output_file := get_unique_filename e.fs target_dir title e.suffix
              let tv := tempVideoPath e
              let ta := tempAudioPath e
              let eff1 := [Effect.downloadVideo sv.1]
              if ¬ e.videoDlOk then (.raisedWithTemps "DownloadError", eff1)
              else
                let eff2 := eff1 ++ [Effect.downloadAudio sv.2]
                if ¬ e.audioDlOk then (.raisedWithTemps "DownloadError", eff2)
                else if ¬ e.tempVideoPresent then
                  (.raisedWithTemps ("FileNotFoundError: Video file not found: " ++ tv),
                   eff2)
                else if ¬ e.tempAudioPresent then
                  (.raisedWithTemps ("FileNotFoundError: Audio file not found: " ++ ta),
                   eff2)
                else
                  let eff3 := eff2 ++ [Effect.muxInvoke tv ta output_file]
                  if e.muxReturncode ≠ 0 then
                    (.raisedWithTemps
                      ("FFmpeg failed with return code " ++ natStr e.muxReturncode),
                     eff3)
                  else if ¬ e.outputPresent then
                    (.raisedWithTemps
                      ("FileNotFoundError: Output file was not created: " ++ output_file),
                     eff3)
                  else if e.outputSize = 0 then
                    (.raisedWithTemps
                      ("Output file was created but is empty: " ++ output_file), eff3)
                  else
                    (.finished, eff3 ++ [Effect.removeTemp tv] ++
                      (if e.removeVideoOk then [Effect.removeTemp ta] else []))
  else (.raisedNoTemps "DownloadError", [])

/-- Outcome plus effect trace of one run. -/
structure RunResult where
  outcome : Outcome
  effects : List Effect
deriving DecidableEq, Repr

/-- Mirrors the try/except wrapper (yt.py 152-347): on an exception the
handler iterates over the list [temp_video, temp_audio] (line 341); when the
exception arose before those variables were assigned at lines 270-271,
evaluating the list itself raises UnboundLocalError inside the handler, so
no deletion is attempted and the secondary exception propagates in place of
the original; after the assignments both deletions are attempted and the
bare raise of line 347 re-raises the original exception. -/
def runDownload (e : Env) : RunResult :=
  match runBody e with
  | (BodyStop.finished, effs) => ⟨Outcome.completed, effs⟩
  | (BodyStop.earlyReturn, effs) => ⟨Outcome.earlyReturn, effs⟩
  | (BodyStop.raisedNoTemps _, effs) =>
    ⟨Outcome.raisedSecondary "UnboundLocalError: cannot access local variable temp_video",
     effs⟩
  | (BodyStop.raisedWithTemps msg, effs) =>
    ⟨Outcome.raised msg,
     effs ++ [Effect.removeTemp (tempVideoPath e), Effect.removeTemp (tempAudioPath e)]⟩

/-- The success/failure counters of the batch loop (yt.py 430-449): only a
propagated exception is counted as a failure; a normal return (completed or
early) increments success_count. -/
def batchCounts (outcomes : List Outcome) : Nat × Nat :=
  outcomes.foldl (fun c o =>
    match o with
    | Outcome.completed => (c.1 + 1, c.2)
    | Outcome.earlyReturn => (c.1 + 1, c.2)
    | Outcome.raised _ => (c.1, c.2 + 1)
    | Outcome.raisedSecondary _ => (c.1, c.2 + 1)) (0, 0)

/-- The exit code of the batch (yt.py 457-458). -/
def batchExitCode (outcomes : List Outcome) : Nat :=
  if (batchCounts outcomes).2 > 0 then 1 else 0

/-- A video-only descriptor used by the concrete environments. -/
def fmtV : Format := ⟨"fv", "mp4", some "1920x1080", some "avc1", some "none",
  some 200, none, some 900⟩

/-- An audio-only descriptor used by the concrete environments. -/
def fmtA : Format := ⟨"fa", "m4a", none, some "none", some "mp4a", some 129,
  none, some 300⟩

/-- Environment of the C2 counterexample: the metadata fetch succeeds but the
format list has no video-only entry. -/
def envC2 : Env :=
  { videoId := "abc", knownTitle := some "t", skipQuality := true,
    outputDir := none, suffix := "", forceOverwrite := false,
    maxResolution := none, infoFetchOk := true, formats := [fmtA],
    titleFetchOk := true, fetchedTitle := "t", qualityChoice := "",
    videoChoiceRaw := "", audioChoiceRaw := "", fs := [], videoDlOk := true,
    audioDlOk := true, tempVideoPresent := true, tempAudioPresent := true,
    muxReturncode := 0, outputPresent := true, outputSize := 5,
    removeVideoOk := true }

/-- Environment of the C2 witness: the audio-only subset is empty. -/
def envC2w : Env :=
  { videoId := "abc", knownTitle := some "t", skipQuality := true,
    outputDir := none, suffix := "", forceOverwrite := false,
    maxResolution := none, infoFetchOk := true, formats := [fmtV],
    titleFetchOk := true, fetchedTitle := "t", qualityChoice := "",
    videoChoiceRaw := "", audioChoiceRaw := "", fs := [], videoDlOk := true,
    audioDlOk := true, tempVideoPresent := true, tempAudioPresent := true,
    muxReturncode := 0, outputPresent := true, outputSize := 5,
    removeVideoOk := true }

/-- Environment of the C3 counterexample: a 720p cap over a 1080p-only list
makes line 184 raise before the temporary paths are assigned. -/
def envC3 : Env :=
  { videoId := "abc", knownTitle := some "t", skipQuality := true,
    outputDir := none, suffix := "", forceOverwrite := false,
    maxResolution := some "720p", infoFetchOk := true, formats := [fmtV, fmtA],
    titleFetchOk := true, fetchedTitle := "t", qualityChoice := "",
    videoChoiceRaw := "", audioChoiceRaw := "", fs := [], videoDlOk := true,
    audioDlOk := true, tempVideoPresent := true, tempAudioPresent := true,
    muxReturncode := 0, outputPresent := true, outputSize := 5,
    removeVideoOk := true }

/-- Environment of the C3 witness: the video download fails after the
temporary paths are assigned. -/
def envC3w : Env :=
  { videoId := "abc", knownTitle := some "t", skipQuality := true,
    outputDir := none, suffix := "", forceOverwrite := false,
    maxResolution := none, infoFetchOk := true, formats := [fmtV, fmtA],
    titleFetchOk := true, fetchedTitle := "t", qualityChoice := "",
    videoChoiceRaw := "", audioChoiceRaw := "", fs := [], videoDlOk := false,
    audioDlOk := true, tempVideoPresent := true, tempAudioPresent := true,
    muxReturncode := 0, outputPresent := true, outputSize := 5,
    removeVideoOk := true }

/-- Environment of the C4 theorem: the force flag is set and the target
path out/video.mp4 already exists; every external step succeeds. -/
def envC4 : Env :=
  { videoId := "abc", knownTitle := some "video", skipQuality := true,
    outputDir := some "out", suffix := "", forceOverwrite := true,
    maxResolution := none, infoFetchOk := true, formats := [fmtV, fmtA],
    titleFetchOk := true, fetchedTitle := "video", qualityChoice := "",
    videoChoiceRaw := "", audioChoiceRaw := "", fs := ["out/video.mp4"],
    videoDlOk := true, audioDlOk := true, tempVideoPresent := true,
    tempAudioPresent := true, muxReturncode := 0, outputPresent := true,
    outputSize := 5, removeVideoOk := true }

/-! ## Definitions supporting the C1 statements and the grouping proofs -/

/-- Invariant of the grouping loop: keys are distinct; every group is
nonempty and holds only formats of the processed list p with exactly its
resolution string; every processed format lies in the group of its
resolution string. -/
def GroupInv (p : List Format) (gs : List (String × List Format)) : Prop :=
  (gs.map Prod.fst).Nodup ∧
  (∀ e ∈ gs, e.2 ≠ [] ∧ ∀ f ∈ e.2, resStr f = e.1 ∧ f ∈ p) ∧
  (∀ f ∈ p, ∃ fs, (resStr f, fs) ∈ gs ∧ f ∈ fs)

/-- Single concrete format used to witness C1 at a discharged hypothesis. -/
def wF : Format :=
  ⟨"136", "mp4", some "1280x720", some "avc1", some "none", some 100, none, some 500⟩

/-- The first counterexample format: no bitrate fields, large filesize. -/
def cexA : Format :=
  ⟨"137", "mp4", some "1920x1080", some "avc1", some "none", none, none, some 1000⟩

/-- The second counterexample format: nonzero bitrate, small filesize. -/
def cexB : Format :=
  ⟨"248", "webm", some "1920x1080", some "vp9", some "none", some 5, none, some 10⟩

/-- Modelled from the spec: the "(bitrate, then file size) tuple" the claim
uses to rank descriptors within the chosen resolution group. -/
def specQualityTuple (f : Format) : Nat × Nat := (fmtBitrate f, fmtFilesize f)

/-- Strict lexicographic order on the spec tuple. -/
def specTupleLt (a b : Nat × Nat) : Prop :=
  a.1 < b.1 ∨ (a.1 = b.1 ∧ a.2 < b.2)

/-! ## Supporting lemmas about the string utilities -/

theorem mem_stripWs {c : Char} {l : List Char} (h : c ∈ stripWs l) : c ∈ l := by
  unfold stripWs at h
  rw [List.mem_reverse] at h
  have h2 := (List.dropWhile_sublist (l := (l.dropWhile isPyWs).reverse)
    (p := isPyWs)).subset h
  rw [List.mem_reverse] at h2
  exact (List.dropWhile_sublist (l := l) (p := isPyWs)).subset h2

theorem pyIntCore_eq_none {l : List Char} (h : ∀ c ∈ l, c.isDigit = false) :
    pyIntCore l = none := by
  cases l with
  | nil => rfl
  | cons c rest =>
    simp only [pyIntCore]
    rw [h c (List.mem_cons_self c rest)]
    simp

theorem pyIntL_eq_none {l : List Char} (h : ∀ c ∈ l, c.isDigit = false) :
    pyIntL l = none := by
  cases l with
  | nil => rfl
  | cons c rest =>
    have hrest : ∀ d ∈ rest, d.isDigit = false :=
      fun d hd => h d (List.mem_cons_of_mem c hd)
    simp only [pyIntL]
    by_cases hp : c = '+'
    · rw [if_pos hp, pyIntCore_eq_none hrest]; rfl
    · rw [if_neg hp]
      by_cases hm : c = '-'
      · rw [if_pos hm, pyIntCore_eq_none hrest]; rfl
      · rw [if_neg hm, pyIntCore_eq_none h]; rfl

theorem pyInt?_eq_none_of_no_digit {s : String} (h : ∀ c ∈ s.data, c.isDigit = false) :
    pyInt? s = none :=
  pyIntL_eq_none (fun c hc => h c (mem_stripWs hc))

theorem splitOnChar_ne_nil (sep : Char) (l : List Char) : splitOnChar sep l ≠ [] := by
  induction l with
  | nil => simp [splitOnChar]
  | cons c rest ih =>
    unfold splitOnChar
    by_cases h : c = sep
    · simp [h]
    · simp only [if_neg h]
      cases hr : splitOnChar sep rest with
      | nil => exact absurd hr ih
      | cons g gs => simp

theorem splitOnChar_mem {sep c : Char} : ∀ {l p : List Char},
    p ∈ splitOnChar sep l → c ∈ p → c ∈ l := by
  intro l
  induction l with
  | nil =>
    intro p hp hc
    simp [splitOnChar] at hp
    subst hp
    exact absurd hc (List.not_mem_nil c)
  | cons a rest ih =>
    intro p hp hc
    unfold splitOnChar at hp
    by_cases h : a = sep
    · rw [if_pos h] at hp
      rcases List.mem_cons.mp hp with h1 | h1
      · subst h1; exact absurd hc (List.not_mem_nil c)
      · exact List.mem_cons_of_mem a (ih h1 hc)
    · rw [if_neg h] at hp
      cases hr : splitOnChar sep rest with
      | nil => exact absurd hr (splitOnChar_ne_nil sep rest)
      | cons g gs =>
        rw [hr] at hp
        rcases List.mem_cons.mp hp with h1 | h1
        · subst h1
          rcases List.mem_cons.mp hc with h2 | h2
          · exact h2 ▸ List.mem_cons_self a rest
          · exact List.mem_cons_of_mem a (ih (hr ▸ List.mem_cons_self g gs) h2)
        · exact List.mem_cons_of_mem a (ih (hr ▸ List.mem_cons_of_mem g h1) hc)

theorem takeWhile_eq_nil_of_no_sat {p : Char → Bool} {l : List Char}
    (h : ∀ c ∈ l, p c = false) : l.takeWhile p = [] := by
  cases l with
  | nil => rfl
  | cons c rest => simp [List.takeWhile_cons, h c (List.mem_cons_self c rest)]

/-! ## C6 — resolution parsing -/

/-- C6: resolution parsing maps "720p" to 720 and "1920x1080" to 1080, and a
string from which no height can be parsed (here: a string containing no
decimal digit at all, which defeats both the WIDTHxHEIGHT branch and the
leading-digits regex) yields none. -/
theorem C6_resolution_parsing :
    get_resolution_height "720p" = some 720 ∧
    get_resolution_height "1920x1080" = some 1080 ∧
    ∀ s : String, (∀ c ∈ s.data, c.isDigit = false) → get_resolution_height s = none := by
  refine ⟨by decide, by decide, ?_⟩
  intro s h
  unfold get_resolution_height
  by_cases hs : s = ""
  · rw [if_pos hs]
  · rw [if_neg hs]
    have hx : (if s.data.contains 'x' then
        match splitOnChar 'x' s.data with
        | [w, hh] =>
          match pyInt? (String.mk w), pyInt? (String.mk hh) with
          | some _, some hv => some hv
          | _, _ => none
        | _ => none
      else none) = none := by
      by_cases hcx : s.data.contains 'x'
      · rw [if_pos hcx]
        cases hsp : splitOnChar 'x' s.data with
        | nil => simp
        | cons w tl =>
          cases tl with
          | nil => simp
          | cons hh tl2 =>
            cases tl2 with
            | nil =>
              have hw : pyInt? (String.mk w) = none := by
                apply pyInt?_eq_none_of_no_digit
                intro c hc
                exact h c (splitOnChar_mem (hsp ▸ List.mem_cons_self w _) hc)
              simp [hw]
            | cons x xs => simp
      · rw [if_neg hcx]
    simp only [hx]
    have : s.data.takeWhile Char.isDigit = [] := takeWhile_eq_nil_of_no_sat h
    simp [this]

/-- Witness for the universally quantified part of C6 at a concrete
digit-free input. -/
theorem C6_witness :
    (∀ c ∈ ("res." : String).data, c.isDigit = false) ∧
    get_resolution_height "res." = none :=
  ⟨by decide, C6_resolution_parsing.2.2 "res." (by decide)⟩

/-! ## C7 and C10 — filename sanitization -/

theorem cleanChar_not_invalid (c : Char) : cleanChar c ∉ INVALID_FILENAME_CHARS := by
  unfold cleanChar
  by_cases h : c ∈ INVALID_FILENAME_CHARS
  · rw [if_pos h]; decide
  · rw [if_neg h]; exact h

theorem sanitize_chars_clean (s : String) (m : Nat) :
    ∀ c ∈ (sanitize_filename s m).data, c ∉ INVALID_FILENAME_CHARS := by
  intro c hc
  unfold sanitize_filename at hc
  simp only at hc
  split at hc
  · rw [String.data_append] at hc
    rcases List.mem_append.mp hc with h1 | h1
    · have hsub : c ∈ (String.mk (s.data.map cleanChar)).data := by
        unfold pySliceTo at h1
        split at h1
        · exact (List.take_subset _ _) h1
        · exact (List.take_subset _ _) h1
      rcases List.mem_map.mp hsub with ⟨a, _, rfl⟩
      exact cleanChar_not_invalid a
    · have : c = '.' := by
        rcases List.mem_cons.mp h1 with h2 | h2
        · exact h2
        · rcases List.mem_cons.mp h2 with h3 | h3
          · exact h3
          · rcases List.mem_cons.mp h3 with h4 | h4
            · exact h4
            · exact absurd h4 (List.not_mem_nil c)
      subst this; decide
  · rcases List.mem_map.mp hc with ⟨a, _, rfl⟩
    exact cleanChar_not_invalid a

theorem pySliceTo_nonneg (l : List Char) (n : Int) (h : 0 ≤ n) :
    pySliceTo l n = l.take n.toNat := by
  unfold pySliceTo
  rw [if_pos h]

theorem sanitize150_length (s : String) :
    (sanitize_filename s DEFAULT_MAX_FILENAME_LENGTH).length ≤ 150 := by
  unfold sanitize_filename DEFAULT_MAX_FILENAME_LENGTH
  simp only
  split
  · rw [String.length_append, String.length_mk,
      pySliceTo_nonneg _ _ (by norm_num),
      show (((150 : Nat) : Int) - 3).toNat = 147 from by decide]
    have h1 : (List.take 147 (List.map cleanChar s.data)).length ≤ 147 :=
      List.length_take_le _ _
    have h2 : ("..." : String).length = 3 := by decide
    omega
  · next h =>
    push_neg at h
    exact h

/-- C7: for every input string the sanitized filename (at the configured
default maximum length 150) contains none of the characters removed by the
regex, and its length is at most the maximum length plus the length of the
"..." ellipsis marker. -/
theorem C7_sanitize_safe (s : String) :
    (∀ c ∈ (sanitize_filename s DEFAULT_MAX_FILENAME_LENGTH).data,
      c ∉ INVALID_FILENAME_CHARS) ∧
    (sanitize_filename s DEFAULT_MAX_FILENAME_LENGTH).length ≤
      DEFAULT_MAX_FILENAME_LENGTH + ("..." : String).length :=
  ⟨sanitize_chars_clean s DEFAULT_MAX_FILENAME_LENGTH,
   le_trans (sanitize150_length s) (by decide)⟩

/-- C10: sanitization at the default maximum length is idempotent. -/
theorem C10_sanitize_idempotent (s : String) :
    sanitize_filename (sanitize_filename s DEFAULT_MAX_FILENAME_LENGTH)
      DEFAULT_MAX_FILENAME_LENGTH =
    sanitize_filename s DEFAULT_MAX_FILENAME_LENGTH := by
  have hclean : (sanitize_filename s DEFAULT_MAX_FILENAME_LENGTH).data.map cleanChar =
      (sanitize_filename s DEFAULT_MAX_FILENAME_LENGTH).data := by
    have : ∀ c ∈ (sanitize_filename s DEFAULT_MAX_FILENAME_LENGTH).data,
        cleanChar c = c := by
      intro c hc
      have := sanitize_chars_clean s DEFAULT_MAX_FILENAME_LENGTH c hc
      unfold cleanChar
      rw [if_neg this]
    calc (sanitize_filename s DEFAULT_MAX_FILENAME_LENGTH).data.map cleanChar
        = (sanitize_filename s DEFAULT_MAX_FILENAME_LENGTH).data.map id :=
          List.map_congr_left this
      _ = (sanitize_filename s DEFAULT_MAX_FILENAME_LENGTH).data := List.map_id _
  conv_lhs => rw [sanitize_filename]
  simp only [hclean]
  have hlen : (String.mk (sanitize_filename s DEFAULT_MAX_FILENAME_LENGTH).data).length ≤
      DEFAULT_MAX_FILENAME_LENGTH := sanitize150_length s
  rw [if_neg (by omega)]

/-! ## C8 — collision avoidance in get_unique_filename -/

theorem natDigitsF_ne_nil (fuel n : Nat) : natDigitsF (fuel + 1) n ≠ [] := by
  unfold natDigitsF
  split
  · simp
  · simp

theorem decVal_append_singleton (l : List Char) (c : Char) :
    decVal (l ++ [c]) = decVal l * 10 + digitVal c := by
  simp [decVal, List.foldl_append]

theorem digitVal_ofNat {m : Nat} (h : m < 10) : digitVal (Char.ofNat (48 + m)) = m := by
  interval_cases m <;> decide

theorem decVal_natDigitsF : ∀ fuel n, n < fuel → decVal (natDigitsF fuel n) = n := by
  intro fuel
  induction fuel with
  | zero => intro n h; omega
  | succ fuel ih =>
    intro n h
    unfold natDigitsF
    split
    · next h10 =>
      show decVal [Char.ofNat (48 + n)] = n
      simp [decVal, digitVal_ofNat h10]
    · next h10 =>
      rw [decVal_append_singleton,
        ih (n / 10) (by omega),
        digitVal_ofNat (Nat.mod_lt _ (by omega))]
      omega

theorem natStr_injective : Function.Injective natStr := by
  intro a b h
  have hd : natDigitsF (a + 1) a = natDigitsF (b + 1) b := congrArg String.data h
  have := congrArg decVal hd
  rwa [decVal_natDigitsF (a + 1) a (by omega),
    decVal_natDigitsF (b + 1) b (by omega)] at this

theorem natStr_length_pos (n : Nat) : 0 < (natStr n).length := by
  rw [natStr, String.length_mk]
  exact List.length_pos.mpr (natDigitsF_ne_nil n n)

theorem uniqueCandidate_inj (bp bn : String) :
    Function.Injective (uniqueCandidate bp bn) := by
  intro a b h
  unfold uniqueCandidate joinPath at h
  by_cases ha : a = 0 <;> by_cases hb : b = 0
  · omega
  · exfalso
    rw [if_pos ha, if_neg hb] at h
    have := congrArg String.length h
    simp only [String.length_append] at this
    have h4 : (".mp4" : String).length = 4 := by decide
    have h1 : ("_" : String).length = 1 := by decide
    have := natStr_length_pos b
    omega
  · exfalso
    rw [if_neg ha, if_pos hb] at h
    have := congrArg String.length h
    simp only [String.length_append] at this
    have h4 : (".mp4" : String).length = 4 := by decide
    have h1 : ("_" : String).length = 1 := by decide
    have := natStr_length_pos a
    omega
  · rw [if_neg ha, if_neg hb] at h
    have hd := congrArg String.data h
    simp only [String.data_append, List.append_assoc] at hd
    have hd2 := List.append_cancel_left hd
    have hd3 := List.append_cancel_left hd2
    have hd4 := List.append_cancel_left hd3
    have hd5 := List.append_cancel_left hd4
    have hd6 : (natStr a).data = (natStr b).data := List.append_cancel_right hd5
    exact natStr_injective (String.ext hd6)

theorem exists_fresh_candidate (fs : List String) (bp bn : String) :
    ∃ j, j ≤ fs.length ∧ uniqueCandidate bp bn j ∉ fs := by
  by_contra hc
  push_neg at hc
  have hsub : ((List.range (fs.length + 1)).map (uniqueCandidate bp bn)) ⊆ fs := by
    intro x hx
    rcases List.mem_map.mp hx with ⟨j, hj, rfl⟩
    exact hc j (Nat.lt_succ_iff.mp (List.mem_range.mp hj))
  have hnd : ((List.range (fs.length + 1)).map (uniqueCandidate bp bn)).Nodup :=
    (List.nodup_range _).map (uniqueCandidate_inj bp bn)
  have hlen := (List.subperm_of_subset hnd hsub).length_le
  simp at hlen

theorem uniqueLoop_spec (fs : List String) (bp bn : String) :
    ∀ fuel k, (∃ j, k ≤ j ∧ j ≤ k + fuel ∧ uniqueCandidate bp bn j ∉ fs) →
    ∃ K, k ≤ K ∧ uniqueLoop fs bp bn k fuel = uniqueCandidate bp bn K ∧
      uniqueCandidate bp bn K ∉ fs ∧
      ∀ j, k ≤ j → j < K → uniqueCandidate bp bn j ∈ fs := by
  intro fuel
  induction fuel with
  | zero =>
    rintro k ⟨j, hkj, hjk, hj⟩
    have hjeq : j = k := by omega
    subst hjeq
    exact ⟨j, le_refl _, rfl, hj, fun i h1 h2 => absurd h1 (by omega)⟩
  | succ fuel ih =>
    rintro k hex
    unfold uniqueLoop
    by_cases hmem : uniqueCandidate bp bn k ∈ fs
    · rw [if_pos hmem]
      obtain ⟨j, hkj, hjk, hj⟩ := hex
      have hjne : j ≠ k := fun he => hj (he ▸ hmem)
      obtain ⟨K, hK1, hK2, hK3, hK4⟩ := ih (k + 1) ⟨j, by omega, by omega, hj⟩
      refine ⟨K, by omega, hK2, hK3, fun j h1 h2 => ?_⟩
      by_cases hj0 : j = k
      · exact hj0 ▸ hmem
      · exact hK4 j (by omega) h2
    · rw [if_neg hmem]
      exact ⟨k, le_refl _, rfl, hmem, fun j h1 h2 => absurd h1 (by omega)⟩

/-! ## Generic facts about the stable insertion sort -/

theorem insertSorted_perm (le : α → α → Bool) (x : α) (l : List α) :
    (insertSorted le x l).Perm (x :: l) := by
  induction l with
  | nil => exact List.Perm.refl _
  | cons y ys ih =>
    unfold insertSorted
    by_cases h : le x y = true
    · rw [if_pos h]
    · rw [if_neg h]
      exact (ih.cons y).trans (List.Perm.swap x y ys)

theorem mem_insertSorted {le : α → α → Bool} {x a : α} {l : List α} :
    a ∈ insertSorted le x l ↔ a = x ∨ a ∈ l := by
  rw [(insertSorted_perm le x l).mem_iff]
  simp

theorem sortByKey_perm (le : α → α → Bool) (l : List α) :
    (sortByKey le l).Perm l := by
  induction l with
  | nil => exact List.Perm.refl _
  | cons x xs ih =>
    exact (insertSorted_perm le x (sortByKey le xs)).trans (ih.cons x)

theorem mem_sortByKey {le : α → α → Bool} {a : α} {l : List α} :
    a ∈ sortByKey le l ↔ a ∈ l := (sortByKey_perm le l).mem_iff

theorem insertSorted_pairwise {le : α → α → Bool}
    (htot : ∀ a b, le a b = false → le b a = true)
    (htrans : ∀ a b c, le a b = true → le b c = true → le a c = true)
    (x : α) : ∀ {l : List α}, l.Pairwise (fun a b => le a b = true) →
    (insertSorted le x l).Pairwise (fun a b => le a b = true) := by
  intro l
  induction l with
  | nil => intro _; simp [insertSorted]
  | cons y ys ih =>
    intro hl
    rcases List.pairwise_cons.mp hl with ⟨hy, hys⟩
    unfold insertSorted
    by_cases h : le x y = true
    · rw [if_pos h]
      refine List.pairwise_cons.mpr ⟨?_, hl⟩
      intro z hz
      rcases List.mem_cons.mp hz with rfl | hz2
      · exact h
      · exact htrans x y z h (hy z hz2)
    · rw [if_neg h]
      have hfalse : le x y = false := by
        revert h
        cases le x y <;> simp
      refine List.pairwise_cons.mpr ⟨?_, ih hys⟩
      intro z hz
      rcases mem_insertSorted.mp hz with hzx | hz2
      · rw [hzx]
        exact htot x y hfalse
      · exact hy z hz2

theorem sortByKey_pairwise {le : α → α → Bool}
    (htot : ∀ a b, le a b = false → le b a = true)
    (htrans : ∀ a b c, le a b = true → le b c = true → le a c = true)
    (l : List α) :
    (sortByKey le l).Pairwise (fun a b => le a b = true) := by
  induction l with
  | nil => simp [sortByKey]
  | cons x xs ih => exact insertSorted_pairwise htot htrans x ih

theorem pairwise_getLast_le {R : α → α → Prop} :
    ∀ {l : List α}, l.Pairwise R → ∀ {m}, l.getLast? = some m →
      ∀ x ∈ l, R x m ∨ x = m := by
  intro l
  induction l with
  | nil => intro _ m hm; simp at hm
  | cons a tl ih =>
    intro hp m hm x hx
    cases tl with
    | nil =>
      rw [List.getLast?_singleton] at hm
      have hma : m = a := by injection hm with h; exact h.symm
      rcases List.mem_cons.mp hx with rfl | hx2
      · exact Or.inr hma.symm
      · exact absurd hx2 (List.not_mem_nil x)
    | cons b tl2 =>
      rw [List.getLast?_cons_cons] at hm
      rcases List.mem_cons.mp hx with rfl | hx2
      · have hmmem : m ∈ b :: tl2 := List.mem_of_getLast?_eq_some hm
        exact Or.inl ((List.pairwise_cons.mp hp).1 m hmmem)
      · exact ih (List.pairwise_cons.mp hp).2 hm x hx2

theorem scalarLe_total (a b : Format) : scalarLe a b = false → scalarLe b a = true := by
  unfold scalarLe
  intro h
  simp only [decide_eq_false_iff_not] at h
  simp only [decide_eq_true_eq]
  omega

theorem scalarLe_trans (a b c : Format) :
    scalarLe a b = true → scalarLe b c = true → scalarLe a c = true := by
  unfold scalarLe
  simp only [decide_eq_true_eq]
  omega

/-! ## The grouping invariant for formats_by_res -/

theorem addToGroups_inv {p : List Format} {gs : List (String × List Format)}
    {f : Format} (h : GroupInv p gs) : GroupInv (p ++ [f]) (addToGroups gs f) := by
  obtain ⟨hnd, hmem, hcov⟩ := h
  unfold addToGroups
  by_cases hany : gs.any (fun e => e.1 == resStr f) = true
  · rw [if_pos hany]
    refine ⟨?_, ?_, ?_⟩
    · have hkeys : (gs.map (fun e => if e.1 = resStr f then (e.1, e.2 ++ [f]) else e)).map
          Prod.fst = gs.map Prod.fst := by
        rw [List.map_map]
        apply List.map_congr_left
        intro e _
        by_cases h1 : e.1 = resStr f <;> simp [h1]
      rw [hkeys]
      exact hnd
    · intro e he
      rcases List.mem_map.mp he with ⟨e0, he0, rfl⟩
      by_cases h1 : e0.1 = resStr f
      · rw [if_pos h1]
        refine ⟨by simp, ?_⟩
        intro g hg
        rcases List.mem_append.mp hg with hg1 | hg1
        · obtain ⟨hr, hp0⟩ := (hmem e0 he0).2 g hg1
          exact ⟨hr, List.mem_append_left _ hp0⟩
        · have hgf : g = f := by simpa using hg1
          subst hgf
          exact ⟨h1.symm, List.mem_append_right _ (by simp)⟩
      · rw [if_neg h1]
        obtain ⟨hne, hall⟩ := hmem e0 he0
        exact ⟨hne, fun g hg => ⟨(hall g hg).1, List.mem_append_left _ (hall g hg).2⟩⟩
    · intro g hg
      rcases List.mem_append.mp hg with hg1 | hg1
      · obtain ⟨fs, hfs, hin⟩ := hcov g hg1
        by_cases h1 : resStr g = resStr f
        · refine ⟨fs ++ [f], ?_, List.mem_append_left _ hin⟩
          refine List.mem_map.mpr ⟨(resStr g, fs), hfs, ?_⟩
          rw [if_pos h1]
        · refine ⟨fs, ?_, hin⟩
          exact List.mem_map.mpr ⟨(resStr g, fs), hfs, by rw [if_neg h1]⟩
      · have hgf : g = f := by simpa using hg1
        subst hgf
        rcases List.any_eq_true.mp hany with ⟨e0, he0, hbeq⟩
        have h1 : e0.1 = resStr g := by simpa using hbeq
        refine ⟨e0.2 ++ [g], ?_, List.mem_append_right _ (by simp)⟩
        refine List.mem_map.mpr ⟨e0, he0, ?_⟩
        rw [if_pos h1, h1]
  · rw [if_neg hany]
    have hnotkey : resStr f ∉ gs.map Prod.fst := by
      intro hk
      rcases List.mem_map.mp hk with ⟨e0, he0, heq⟩
      exact hany (List.any_eq_true.mpr ⟨e0, he0, by simp [heq]⟩)
    refine ⟨?_, ?_, ?_⟩
    · rw [List.map_append]
      refine List.Nodup.append hnd (by simp) ?_
      intro a ha hb
      have : a = resStr f := by simpa using hb
      exact hnotkey (this ▸ ha)
    · intro e he
      rcases List.mem_append.mp he with he1 | he1
      · obtain ⟨hne, hall⟩ := hmem e he1
        exact ⟨hne, fun g hg => ⟨(hall g hg).1, List.mem_append_left _ (hall g hg).2⟩⟩
      · have he2 : e = (resStr f, [f]) := by simpa using he1
        subst he2
        refine ⟨by simp, ?_⟩
        intro g hg
        have hgf : g = f := by simpa using hg
        subst hgf
        exact ⟨rfl, List.mem_append_right _ (by simp)⟩
    · intro g hg
      rcases List.mem_append.mp hg with hg1 | hg1
      · obtain ⟨fs, hfs, hin⟩ := hcov g hg1
        exact ⟨fs, List.mem_append_left _ hfs, hin⟩
      · have hgf : g = f := by simpa using hg1
        subst hgf
        exact ⟨[g], List.mem_append_right _ (by simp), by simp⟩

theorem foldl_addToGroups_inv :
    ∀ (l p : List Format) (gs : List (String × List Format)), GroupInv p gs →
      GroupInv (p ++ l) (l.foldl addToGroups gs) := by
  intro l
  induction l with
  | nil => intro p gs h; simpa using h
  | cons f tl ih =>
    intro p gs h
    rw [List.foldl_cons]
    have h2 := ih (p ++ [f]) (addToGroups gs f) (addToGroups_inv h)
    rwa [List.append_assoc, List.singleton_append] at h2

theorem groupByRes_inv (l : List Format) : GroupInv l (groupByRes l) := by
  have h0 : GroupInv [] ([] : List (String × List Format)) := by
    refine ⟨by simp, by simp, by simp⟩
  have := foldl_addToGroups_inv l [] [] h0
  simpa [groupByRes] using this

theorem lookupGroup_eq_of_mem :
    ∀ {gs : List (String × List Format)} {k : String} {fs : List Format},
      (gs.map Prod.fst).Nodup → (k, fs) ∈ gs → lookupGroup gs k = some fs := by
  intro gs
  induction gs with
  | nil => intro k fs _ hmem; simp at hmem
  | cons g gt ih =>
    intro k fs hnd hmem
    rw [List.map_cons, List.nodup_cons] at hnd
    obtain ⟨hnin, hnd2⟩ := hnd
    unfold lookupGroup
    by_cases hk : g.1 = k
    · rw [List.find?_cons_of_pos _ (by simp [hk])]
      rcases List.mem_cons.mp hmem with heq | hmem2
      · simp [← heq]
      · exfalso
        exact hnin (hk ▸ List.mem_map.mpr ⟨(k, fs), hmem2, rfl⟩)
    · rw [List.find?_cons_of_neg _ (by simp [hk])]
      rcases List.mem_cons.mp hmem with heq | hmem2
      · exact absurd (by rw [← heq]) hk
      · exact ih hnd2 hmem2

/-! ## The Python max over the group keys -/

theorem foldMaxBy_spec (ks : List String) : ∀ x : String,
    (ks.foldl (fun cur y => if resKeyHeight cur < resKeyHeight y then y else cur) x)
      ∈ x :: ks ∧
    resKeyHeight x ≤ resKeyHeight
      (ks.foldl (fun cur y => if resKeyHeight cur < resKeyHeight y then y else cur) x) ∧
    ∀ y ∈ ks, resKeyHeight y ≤ resKeyHeight
      (ks.foldl (fun cur y => if resKeyHeight cur < resKeyHeight y then y else cur) x) := by
  induction ks with
  | nil =>
    intro x
    exact ⟨by simp, le_refl _, by simp⟩
  | cons y ks ih =>
    intro x
    rw [List.foldl_cons]
    by_cases hc : resKeyHeight x < resKeyHeight y
    · rw [if_pos hc]
      obtain ⟨h1, h2, h3⟩ := ih y
      refine ⟨?_, le_trans (le_of_lt hc) h2, ?_⟩
      · rcases List.mem_cons.mp h1 with hr | hr
        · rw [hr]; simp
        · simp [hr]
      · intro z hz
        rcases List.mem_cons.mp hz with hzy | hz2
        · rw [hzy]; exact h2
        · exact h3 z hz2
    · rw [if_neg hc]
      obtain ⟨h1, h2, h3⟩ := ih x
      refine ⟨?_, h2, ?_⟩
      · rcases List.mem_cons.mp h1 with hr | hr
        · rw [hr]; simp
        · simp [hr]
      · intro z hz
        rcases List.mem_cons.mp hz with hzy | hz2
        · rw [hzy]
          have : resKeyHeight y ≤ resKeyHeight x := by omega
          exact le_trans this h2
        · exact h3 z hz2

theorem pyMaxList_spec :
    ∀ {m : List String} {k : String}, pyMaxList m = some k →
      k ∈ m ∧ ∀ k2 ∈ m, resKeyHeight k2 ≤ resKeyHeight k := by
  intro m k h
  cases m with
  | nil => exact absurd h (by simp [pyMaxList])
  | cons k0 ks =>
    simp only [pyMaxList] at h
    have hk := Option.some.inj h
    obtain ⟨h1, h2, h3⟩ := foldMaxBy_spec ks k0
    rw [hk] at h1 h2 h3
    refine ⟨h1, ?_⟩
    intro k2 hk2
    rcases List.mem_cons.mp hk2 with hzy | hk3
    · rw [hzy]; exact h2
    · exact h3 k2 hk3

theorem pyMaxKey_spec {gs : List (String × List Format)} {k : String}
    (h : pyMaxKey gs = some k) :
    k ∈ gs.map Prod.fst ∧ ∀ k2 ∈ gs.map Prod.fst, resKeyHeight k2 ≤ resKeyHeight k :=
  pyMaxList_spec h

/-! ## C1 — capped format selection -/

/-- C1 (amended): with a resolution cap parsing to a truthy height H, a
successful selection returns a format of the input list with a truthy parsed
height that is at most H and maximal among all qualifying input formats, and
whose scalar fallback score (tbr, else vbr, else filesize, else 0) is maximal
inside the group of formats sharing its exact resolution string; and when no
input format qualifies, the selection raises. -/
theorem C1_capped_selection (l : List Format) (res : String) (H : Int)
    (hres : get_resolution_height res = some H) (hH : ¬H = 0) :
    (∀ f, selectVideoFormat l (some res) = Except.ok f →
      f ∈ l ∧
      ∃ hf, get_resolution_height (resStr f) = some hf ∧ hf ≠ 0 ∧ hf ≤ H ∧
        (∀ g ∈ l, ∀ hg, get_resolution_height (resStr g) = some hg →
          hg ≠ 0 → hg ≤ H → hg ≤ hf) ∧
        (∀ g ∈ l, resStr g = resStr f → qualifiesB g H = true →
          scalarScore g ≤ scalarScore f)) ∧
    ((∀ g ∈ l, qualifiesB g H = false) →
      selectVideoFormat l (some res) =
        Except.error ("No video formats found for resolution " ++ res ++ " or below")) := by
  constructor
  · intro f hok
    simp only [selectVideoFormat, hres] at hok
    rw [if_neg hH] at hok
    set fl := (sort_formats_by_quality l).filter (fun g => qualifiesB g H) with hfl
    by_cases hemp : fl = []
    · rw [if_pos hemp] at hok
      exact Except.noConfusion hok
    · rw [if_neg hemp] at hok
      obtain ⟨hnd, hmem, hcov⟩ := groupByRes_inv fl
      cases hmax : pyMaxKey (groupByRes fl) with
      | none =>
        simp only [hmax] at hok
        exact Except.noConfusion hok
      | some res_max =>
        simp only [hmax] at hok
        obtain ⟨hkmem, hkmax⟩ := pyMaxKey_spec hmax
        obtain ⟨e0, he0, he0k⟩ := List.mem_map.mp hkmem
        have hlook : lookupGroup (groupByRes fl) res_max = some e0.2 := by
          apply lookupGroup_eq_of_mem hnd
          rw [← he0k]
          simpa using he0
        simp only [hlook] at hok
        cases hlast : (sortByKey scalarLe e0.2).getLast? with
        | none =>
          exfalso
          have hne := (hmem e0 he0).1
          have hperm := sortByKey_perm scalarLe e0.2
          rw [List.getLast?_eq_none_iff] at hlast
          rw [hlast] at hperm
          exact hne hperm.nil_eq.symm
        | some best =>
          simp only [pyLastFmt, hlast] at hok
          injection hok with hbf
          subst hbf
          have hbmem : best ∈ e0.2 :=
            mem_sortByKey.mp (List.mem_of_getLast?_eq_some hlast)
          obtain ⟨hkey, hfl_mem⟩ := (hmem e0 he0).2 best hbmem
          have hbql : qualifiesB best H = true := (List.mem_filter.mp hfl_mem).2
          have hbl : best ∈ l := mem_sortByKey.mp (List.mem_filter.mp hfl_mem).1
          have hb_parse : ∃ hb, get_resolution_height (resStr best) = some hb ∧
              hb ≠ 0 ∧ hb ≤ H := by
            unfold qualifiesB at hbql
            cases hpb : get_resolution_height (resStr best) with
            | none => rw [hpb] at hbql; exact absurd hbql (by simp)
            | some hb =>
              rw [hpb] at hbql
              simp only [Bool.and_eq_true, decide_eq_true_eq, bne_iff_ne] at hbql
              refine ⟨hb, rfl, ?_, ?_⟩
              · simpa using hbql.1
              · simpa using hbql.2
          obtain ⟨hb, hpb, hb0, hbH⟩ := hb_parse
          refine ⟨hbl, hb, hpb, hb0, hbH, ?_, ?_⟩
          · intro g hg hgv hgp hg0 hgH
            have hgql : qualifiesB g H = true := by
              unfold qualifiesB
              rw [hgp]
              simp [hg0, hgH]
            have hgfl : g ∈ fl :=
              List.mem_filter.mpr ⟨mem_sortByKey.mpr hg, hgql⟩
            obtain ⟨fsg, hfsg, _⟩ := hcov g hgfl
            have hgkey : resStr g ∈ (groupByRes fl).map Prod.fst :=
              List.mem_map.mpr ⟨(resStr g, fsg), hfsg, rfl⟩
            have hle := hkmax (resStr g) hgkey
            have h1 : resKeyHeight (resStr g) = hgv := by
              unfold resKeyHeight
              rw [hgp]
              rfl
            have h2 : resKeyHeight res_max = hb := by
              rw [← he0k, ← hkey]
              unfold resKeyHeight
              rw [hpb]
              rfl
            omega
          · intro g hgl hgkey hgql
            have hgfl : g ∈ fl :=
              List.mem_filter.mpr ⟨mem_sortByKey.mpr hgl, hgql⟩
            obtain ⟨fsg, hfsg, hgin⟩ := hcov g hgfl
            have hgrm : resStr g = res_max := by rw [hgkey, hkey, he0k]
            rw [hgrm] at hfsg
            have hlook2 : lookupGroup (groupByRes fl) res_max = some fsg :=
              lookupGroup_eq_of_mem hnd hfsg
            have hfs_eq : fsg = e0.2 := Option.some.inj (hlook2.symm.trans hlook)
            rw [hfs_eq] at hgin
            have hgsorted : g ∈ sortByKey scalarLe e0.2 := mem_sortByKey.mpr hgin
            have hpw := sortByKey_pairwise scalarLe_total scalarLe_trans e0.2
            rcases pairwise_getLast_le hpw hlast g hgsorted with hle | heq
            · unfold scalarLe at hle
              simpa using hle
            · rw [heq]
  · intro hnone
    simp only [selectVideoFormat, hres]
    rw [if_neg hH]
    have hemp : (sort_formats_by_quality l).filter (fun g => qualifiesB g H) = [] := by
      apply List.filter_eq_nil_iff.mpr
      intro a ha
      rw [hnone a (mem_sortByKey.mp ha)]
      simp
    rw [if_pos hemp]

/-- Witness for C1 at the concrete cap 720p and a one-element format list. -/
theorem C1_witness :
    get_resolution_height "720p" = some 720 ∧
    ¬(720 : Int) = 0 ∧
    ((∀ f, selectVideoFormat [wF] (some "720p") = Except.ok f →
      f ∈ [wF] ∧
      ∃ hf, get_resolution_height (resStr f) = some hf ∧ hf ≠ 0 ∧ hf ≤ 720 ∧
        (∀ g ∈ [wF], ∀ hg, get_resolution_height (resStr g) = some hg →
          hg ≠ 0 → hg ≤ 720 → hg ≤ hf) ∧
        (∀ g ∈ [wF], resStr g = resStr f → qualifiesB g 720 = true →
          scalarScore g ≤ scalarScore f)) ∧
    ((∀ g ∈ [wF], qualifiesB g 720 = false) →
      selectVideoFormat [wF] (some "720p") =
        Except.error ("No video formats found for resolution " ++ "720p" ++ " or below"))) :=
  ⟨by decide, by decide, C1_capped_selection [wF] "720p" 720 (by decide) (by decide)⟩

/-- C1 counterexample: both formats share the single qualifying resolution
group, cexB has the strictly larger (bitrate, filesize) tuple, yet the code
selects cexA because its sorted key is the scalar fallback score, which is
the filesize 1000 for cexA (no bitrate present) versus the bitrate 5 for
cexB. -/
theorem C1_counterexample :
    selectVideoFormat [cexA, cexB] (some "1080p") = Except.ok cexA ∧
    specTupleLt (specQualityTuple cexA) (specQualityTuple cexB) ∧
    cexA ≠ cexB := by
  refine ⟨by decide, ?_, by decide⟩
  unfold specTupleLt specQualityTuple
  left
  decide

/-- C8: the chosen path does not exist at selection time, and it is candidate
number K of the sequence whose element 0 is the plain sanitized base name and
whose element k >= 1 differs from it only by the appended counter k, with every
earlier candidate (including the plain name) existing in the filesystem. -/
theorem C8_unique_filename (fs : List String) (base_path title suffix : String) :
    get_unique_filename fs base_path title suffix ∉ fs ∧
    ∃ K, get_unique_filename fs base_path title suffix =
        uniqueCandidate base_path (uniqueBaseName title suffix) K ∧
      ∀ j, j < K → uniqueCandidate base_path (uniqueBaseName title suffix) j ∈ fs := by
  obtain ⟨j, hj1, hj2⟩ := exists_fresh_candidate fs base_path (uniqueBaseName title suffix)
  obtain ⟨K, _, h2, h3, h4⟩ := uniqueLoop_spec fs base_path (uniqueBaseName title suffix)
    (fs.length + 1) 0 ⟨j, Nat.zero_le _, by omega, hj2⟩
  unfold get_unique_filename
  exact ⟨h2 ▸ h3, K, h2, fun i hi => h4 i (Nat.zero_le _) hi⟩

/-! ## C9 and C5 — the input resolver -/

/-- C9: an input of exactly 11 characters matching neither host pattern
resolves to itself, independently of the search capability (no network
search can influence the result). -/
theorem C9_literal_id (search : String → Nat → Option (List VideoRef))
    (input : String) (n : Nat)
    (h1 : containsSub input "youtube.com" = false)
    (h2 : containsSub input "youtu.be" = false)
    (h3 : input.length = 11) :
    get_video_id search input n = some [⟨some input, none⟩] := by
  unfold get_video_id
  rw [h1, h2]
  simp [h3]

/-- Witness for C9 at the literal id of scenario A. -/
theorem C9_witness :
    containsSub "dQw4w9WgXcQ" "youtube.com" = false ∧
    containsSub "dQw4w9WgXcQ" "youtu.be" = false ∧
    ("dQw4w9WgXcQ" : String).length = 11 ∧
    get_video_id (fun _ _ => none) "dQw4w9WgXcQ" 1 =
      some [⟨some "dQw4w9WgXcQ", none⟩] :=
  ⟨by decide, by decide, by decide,
   C9_literal_id (fun _ _ => none) "dQw4w9WgXcQ" 1 (by decide) (by decide) (by decide)⟩

theorem splitOnChar_no_sep {sep : Char} : ∀ {l : List Char}, sep ∉ l →
    splitOnChar sep l = [l] := by
  intro l
  induction l with
  | nil => intro _; rfl
  | cons c rest ih =>
    intro h
    unfold splitOnChar
    rw [if_neg (show ¬(c = sep) from fun hc => h (hc ▸ List.mem_cons_self c rest))]
    rw [ih (fun hc => h (List.mem_cons_of_mem c hc))]

theorem takeWhile_eq_self_of_all {p : Char → Bool} : ∀ {l : List Char},
    (∀ c ∈ l, p c = true) → l.takeWhile p = l := by
  intro l
  induction l with
  | nil => intro _; rfl
  | cons c rest ih =>
    intro h
    rw [List.takeWhile_cons, h c (List.mem_cons_self c rest)]
    simp [ih (fun d hd => h d (List.mem_cons_of_mem c hd))]

theorem unquoteL_id : ∀ {l : List Char}, (∀ c ∈ l, c ≠ '%') →
    unquoteL l = l := by
  intro l
  induction l with
  | nil => intro _; rfl
  | cons c rest ih =>
    intro h
    rw [unquoteL.eq_def]
    split
    · next _ heq => exact absurd heq (by simp)
    · next _ a b r heq =>
      exfalso
      injection heq with h1 h2
      exact h c (List.mem_cons_self c rest) h1
    · next _ c2 rest2 _ heq =>
      injection heq with hc2 hr2
      rw [← hc2, ← hr2, ih (fun d hd => h d (List.mem_cons_of_mem c hd))]

theorem uqPlus_id {l : List Char} (h : ∀ c ∈ l, c ≠ '%' ∧ c ≠ '+') :
    uqPlus l = l := by
  unfold uqPlus
  have hmap : l.map (fun c => if c = '+' then ' ' else c) = l := by
    have hcg : ∀ c ∈ l, (if c = '+' then ' ' else c) = c :=
      fun c hc => if_neg (h c hc).2
    rw [List.map_congr_left hcg]
    exact List.map_id l
  rw [hmap]
  exact unquoteL_id (fun c hc => (h c hc).1)

theorem parse_qs_v_literal {x : List Char} (hne : x ≠ [])
    (hclean : ∀ c ∈ x, c ≠ '&' ∧ c ≠ '=' ∧ c ≠ '%' ∧ c ≠ '+') :
    parse_qs_v (String.mk ('v' :: '=' :: x)) = some (String.mk x) := by
  unfold parse_qs_v
  have hd : (String.mk ('v' :: '=' :: x)).data = 'v' :: '=' :: x := rfl
  rw [hd]
  have hsp : splitOnChar '&' ('v' :: '=' :: x) = ['v' :: '=' :: x] := by
    apply splitOnChar_no_sep
    intro hmem
    rcases List.mem_cons.mp hmem with he | hmem2
    · exact absurd he (by decide)
    · rcases List.mem_cons.mp hmem2 with he | hmem3
      · exact absurd he (by decide)
      · exact (hclean '&' hmem3).1 rfl
  rw [hsp]
  have hsf : splitFirst '=' ('v' :: '=' :: x) = (['v'], some x) := by
    simp [splitFirst]
  have hfp : fieldPair? ('v' :: '=' :: x) = some (['v'], x) := by
    unfold fieldPair?
    rw [if_neg (by simp)]
    simp only [hsf]
    rw [if_neg hne]
  simp only [List.filterMap_cons, List.filterMap_nil, hfp]
  simp only [List.findSome?_cons]
  rw [if_pos (by decide)]
  have hux : uqPlus x = x := uqPlus_id (fun c hc =>
    ⟨(hclean c hc).2.2.1, (hclean c hc).2.2.2⟩)
  rw [hux]

/-- C5 (amended): a youtube.com-pattern input resolves to the value of the
first v query parameter (spelled out for a query that is literally the
parameter v with a plain value); a youtu.be-pattern input without the
youtube.com pattern resolves to the parsed path with its first character (the
leading slash) removed — the whole remaining path, which equals the first
path segment exactly when the path has a single segment.  The title is
unknown in both branches and no search is performed. -/
theorem C5_url_resolution :
    (∀ (search : String → Nat → Option (List VideoRef)) (input : String) (n : Nat),
      containsSub input "youtube.com" = true →
      get_video_id search input n =
        some [⟨parse_qs_v (urlparse input).query, none⟩]) ∧
    (∀ x : List Char, x ≠ [] →
      (∀ c ∈ x, c ≠ '&' ∧ c ≠ '=' ∧ c ≠ '%' ∧ c ≠ '+') →
      parse_qs_v (String.mk ('v' :: '=' :: x)) = some (String.mk x)) ∧
    (∀ (search : String → Nat → Option (List VideoRef)) (input : String) (n : Nat),
      containsSub input "youtube.com" = false →
      containsSub input "youtu.be" = true →
      get_video_id search input n =
        some [⟨some (strTail (urlparse input).path), none⟩]) ∧
    (∀ (p : String) (seg : List Char), p = String.mk ('/' :: seg) →
      (∀ c ∈ seg, c ≠ '/') → strTail p = specFirstPathSegment p) := by
  refine ⟨?_, ?_, ?_, ?_⟩
  · intro search input n h
    unfold get_video_id
    rw [h]
    simp
  · intro x hne hclean
    exact parse_qs_v_literal hne hclean
  · intro search input n h1 h2
    unfold get_video_id
    rw [h1, h2]
    simp
  · intro p seg hp hseg
    subst hp
    unfold strTail specFirstPathSegment
    have hd : (String.mk ('/' :: seg)).data = '/' :: seg := rfl
    rw [hd]
    simp only [List.drop_succ_cons, List.drop_zero, List.dropWhile_cons]
    rw [if_pos (by decide)]
    cases seg with
    | nil => rfl
    | cons s0 srest =>
      have hs0 : s0 ≠ '/' := hseg s0 (List.mem_cons_self s0 srest)
      rw [List.dropWhile_cons, if_neg (by simpa using hs0)]
      have : List.takeWhile (fun c => decide (c ≠ '/')) (s0 :: srest) = s0 :: srest := by
        apply takeWhile_eq_self_of_all
        intro c hc
        simpa using hseg c hc
      rw [this]

/-- C5 counterexample: the input contains the youtu.be pattern and a path of
two segments; the resolver returns the whole path tail ab/c, not the first
path segment ab claimed by the spec. -/
theorem C5_counterexample :
    get_video_id (fun _ _ => none) "https://youtu.be/ab/c" 1 =
      some [⟨some "ab/c", none⟩] ∧
    specFirstPathSegment (urlparse "https://youtu.be/ab/c").path = "ab" ∧
    ("ab/c" : String) ≠ "ab" :=
  ⟨by decide, by decide, by decide⟩

/-- Witness for C5 at the scenario B input and the concrete host-form URL. -/
theorem C5_witness :
    get_video_id (fun _ _ => none) "https://www.youtube.com/watch?v=dQw4w9WgXcQ" 1 =
      some [⟨parse_qs_v (urlparse "https://www.youtube.com/watch?v=dQw4w9WgXcQ").query,
        none⟩] ∧
    parse_qs_v (String.mk ('v' :: '=' :: "dQw4w9WgXcQ".data)) =
      some (String.mk "dQw4w9WgXcQ".data) ∧
    get_video_id (fun _ _ => none) "https://youtu.be/abc12345678" 1 =
      some [⟨some (strTail (urlparse "https://youtu.be/abc12345678").path), none⟩] ∧
    strTail "/abc12345678" = specFirstPathSegment "/abc12345678" :=
  ⟨C5_url_resolution.1 (fun _ _ => none) "https://www.youtube.com/watch?v=dQw4w9WgXcQ" 1
     (by decide),
   C5_url_resolution.2.1 "dQw4w9WgXcQ".data (by decide) (by decide),
   C5_url_resolution.2.2.1 (fun _ _ => none) "https://youtu.be/abc12345678" 1
     (by decide) (by decide),
   C5_url_resolution.2.2.2 "/abc12345678" "abc12345678".data (by decide) (by decide)⟩

/-! ## C2 — empty video-only or audio-only subset -/

/-- C2 (amended): with a successful metadata fetch, an empty video-only or
audio-only subset makes the operation log and return early with no download
attempted; the batch loop counts such a video as a success (only propagated
exceptions count as failures) and exits with code 0 when it is the only
video. -/
theorem C2_empty_subsets (e : Env) (hinfo : e.infoFetchOk = true)
    (h : videoOnly e.formats = [] ∨ audioOnly e.formats = []) :
    runDownload e = ⟨Outcome.earlyReturn, []⟩ ∧
    batchCounts [(runDownload e).outcome] = (1, 0) ∧
    batchExitCode [(runDownload e).outcome] = 0 := by
  have hbody : runBody e = (BodyStop.earlyReturn, []) := by
    unfold runBody
    rw [hinfo]
    simp only [if_true]
    rw [if_pos h]
  have hrd : runDownload e = ⟨Outcome.earlyReturn, []⟩ := by
    unfold runDownload
    rw [hbody]
  refine ⟨hrd, ?_, ?_⟩ <;> rw [hrd] <;> rfl

/-- C2 counterexample: a format list without video-only entries yields an
early return with no effects, counted as a success with exit code 0 — not as
a failure of the batch. -/
theorem C2_counterexample :
    videoOnly envC2.formats = [] ∧
    runDownload envC2 = ⟨Outcome.earlyReturn, []⟩ ∧
    batchCounts [(runDownload envC2).outcome] = (1, 0) ∧
    batchExitCode [(runDownload envC2).outcome] = 0 :=
  ⟨by decide, by decide, by decide, by decide⟩

/-- Witness for C2 at an environment whose audio-only subset is empty. -/
theorem C2_witness :
    envC2w.infoFetchOk = true ∧
    (videoOnly envC2w.formats = [] ∨ audioOnly envC2w.formats = []) ∧
    (runDownload envC2w = ⟨Outcome.earlyReturn, []⟩ ∧
     batchCounts [(runDownload envC2w).outcome] = (1, 0) ∧
     batchExitCode [(runDownload envC2w).outcome] = 0) :=
  ⟨rfl, by decide, C2_empty_subsets envC2w rfl (by decide)⟩

/-! ## C3 — cleanup and re-raise on exceptions -/

/-- C3 (amended): when the body raises after the temporary paths are
assigned, the handler attempts deletion of both temporary files and the
original exception is re-raised, counted as one batch failure; exceptions
raised earlier instead surface as the secondary UnboundLocalError of the
handler itself, with no deletion attempted (see the counterexample). -/
theorem C3_cleanup_reraise (e : Env) (msg : String) (effs : List Effect)
    (h : runBody e = (BodyStop.raisedWithTemps msg, effs)) :
    runDownload e = ⟨Outcome.raised msg,
      effs ++ [Effect.removeTemp (tempVideoPath e),
               Effect.removeTemp (tempAudioPath e)]⟩ ∧
    Effect.removeTemp (tempVideoPath e) ∈ (runDownload e).effects ∧
    Effect.removeTemp (tempAudioPath e) ∈ (runDownload e).effects ∧
    batchCounts [(runDownload e).outcome] = (0, 1) := by
  have hrd : runDownload e = ⟨Outcome.raised msg,
      effs ++ [Effect.removeTemp (tempVideoPath e),
               Effect.removeTemp (tempAudioPath e)]⟩ := by
    unfold runDownload
    rw [h]
  refine ⟨hrd, ?_, ?_, ?_⟩ <;> rw [hrd]
  · simp
  · simp
  · rfl

/-- C3 counterexample: the resolution-cap failure raises at yt.py line 184,
before temp_video and temp_audio exist; the cleanup handler then raises
UnboundLocalError itself, the original exception is not re-raised, and no
deletion is attempted. -/
theorem C3_counterexample :
    runDownload envC3 =
      ⟨Outcome.raisedSecondary "UnboundLocalError: cannot access local variable temp_video",
       []⟩ ∧
    (runDownload envC3).outcome ≠
      Outcome.raised "No video formats found for resolution 720p or below" ∧
    ∀ p, Effect.removeTemp p ∉ (runDownload envC3).effects := by
  refine ⟨by decide, by decide, ?_⟩
  intro p hp
  have heff : (runDownload envC3).effects = [] := by decide
  rw [heff] at hp
  exact List.not_mem_nil _ hp

/-- Witness for C3 at an environment whose video download fails after the
temporary paths are assigned. -/
theorem C3_witness :
    runBody envC3w = (BodyStop.raisedWithTemps "DownloadError",
      [Effect.downloadVideo "fv"]) ∧
    (runDownload envC3w = ⟨Outcome.raised "DownloadError",
        [Effect.downloadVideo "fv"] ++
          [Effect.removeTemp (tempVideoPath envC3w),
           Effect.removeTemp (tempAudioPath envC3w)]⟩ ∧
     Effect.removeTemp (tempVideoPath envC3w) ∈ (runDownload envC3w).effects ∧
     Effect.removeTemp (tempAudioPath envC3w) ∈ (runDownload envC3w).effects ∧
     batchCounts [(runDownload envC3w).outcome] = (0, 1)) :=
  ⟨by decide, C3_cleanup_reraise envC3w "DownloadError"
    [Effect.downloadVideo "fv"] (by decide)⟩

/-! ## C4 — the force flag and existing output -/

/-- C4: with force set and out/video.mp4 existing, check_file_exists would
consent to overwriting without prompting, but that function is never called
on the download path; the run instead writes to the fresh collision-avoided
path out/video_1.mp4, leaving the existing file untouched, so nothing is
overwritten despite the flag. -/
theorem C4_force_ignored :
    envC4.forceOverwrite = true ∧
    "out/video.mp4" ∈ envC4.fs ∧
    check_file_exists envC4.fs "out/video.mp4" true "" = true ∧
    runDownload envC4 = ⟨Outcome.completed,
      [Effect.downloadVideo "fv", Effect.downloadAudio "fa",
       Effect.muxInvoke (tempVideoPath envC4) (tempAudioPath envC4) "out/video_1.mp4",
       Effect.removeTemp (tempVideoPath envC4),
       Effect.removeTemp (tempAudioPath envC4)]⟩ ∧
    ("out/video_1.mp4" : String) ≠ "out/video.mp4" :=
  ⟨rfl, by decide, by decide, by decide, by decide⟩

end YtDown
